import Mathlib

/-!
Verification of the OAuth 1.0a request-signing core of
`scripts/netsuite-downloader.js` (class `NetSuiteDownloader`).

The JavaScript source is shallowly embedded below.  Strings are Lean
`String`s (sequences of Unicode scalar values, as in well-formed JS
strings); bytes are `Nat`s below 256.  JS values that may be either a
string or a number (the OAuth parameter values) are modelled by `JSVal`.
Randomness and the clock are modelled by passing the nonce bytes and the
epoch timestamp as explicit arguments, exactly where the source calls
`crypto.randomBytes` and `Date.now()`.
-/

namespace NetSuite

/-! ## Percent-encoding (`encodeRFC3986`, source lines 79-82)

The source computes `encodeURIComponent(str)` and then replaces every
character of the class `[!'()*]` in the result by `'%' +
c.charCodeAt(0).toString(16).toUpperCase()` (two uppercase hex digits for
these five characters). -/

/-- UTF-8 byte sequence of a Unicode scalar value (what
`encodeURIComponent` escapes non-ASCII characters into, and what a JS
string contributes to an HMAC input). -/
def utf8Bytes (c : Char) : List Nat :=
  if c.toNat < 128 then [c.toNat]
  else if c.toNat < 2048 then [192 + c.toNat / 64, 128 + c.toNat % 64]
  else if c.toNat < 65536 then
    [224 + c.toNat / 4096, 128 + (c.toNat / 64) % 64, 128 + c.toNat % 64]
  else
    [240 + c.toNat / 262144, 128 + (c.toNat / 4096) % 64,
     128 + (c.toNat / 64) % 64, 128 + c.toNat % 64]

/-- UTF-8 bytes of a whole string. -/
def utf8Encode (s : String) : List Nat := s.data.flatMap utf8Bytes

/-- Uppercase hexadecimal digit (0-15). -/
def hexDigitUpper (d : Nat) : Char :=
  if d < 10 then Char.ofNat (48 + d) else Char.ofNat (55 + d)

/-- A `%XX` escape: percent sign followed by the two uppercase hex digits
of the byte. -/
def pctHex (b : Nat) : List Char :=
  [Char.ofNat 37, hexDigitUpper (b / 16), hexDigitUpper (b % 16)]

/-- The set of code points that JavaScript `encodeURIComponent` leaves
unescaped: `A-Z a-z 0-9 - _ . ! ~ * ' ( )`. -/
def isURIUnescaped (n : Nat) : Prop :=
  (65 ≤ n ∧ n ≤ 90) ∨ (97 ≤ n ∧ n ≤ 122) ∨ (48 ≤ n ∧ n ≤ 57) ∨
  n = 45 ∨ n = 95 ∨ n = 46 ∨ n = 33 ∨ n = 126 ∨ n = 42 ∨ n = 39 ∨ n = 40 ∨ n = 41

instance (n : Nat) : Decidable (isURIUnescaped n) := by
  unfold isURIUnescaped; infer_instance

/-- One character under `encodeURIComponent`: unescaped characters pass
through, every other character is escaped as the `%XX` escapes of its
UTF-8 bytes. -/
def encodeURIComponentChar (c : Char) : List Char :=
  if isURIUnescaped c.toNat then [c] else (utf8Bytes c).flatMap pctHex

/-- JavaScript `encodeURIComponent` on a whole string. -/
def encodeURIComponentStr (s : String) : String :=
  ⟨s.data.flatMap encodeURIComponentChar⟩

/-- Membership in the regex character class `[!'()*]` of the source's
`.replace` call. -/
def isBangQuoteParenStar (c : Char) : Prop :=
  c = Char.ofNat 33 ∨ c = Char.ofNat 39 ∨ c = Char.ofNat 40 ∨
  c = Char.ofNat 41 ∨ c = Char.ofNat 42

instance (c : Char) : Decidable (isBangQuoteParenStar c) := by
  unfold isBangQuoteParenStar; infer_instance

/-- The source's `.replace(/[!'()*]/g, c => '%' + c.charCodeAt(0).toString(16).toUpperCase())`:
each character of the class is replaced by its uppercase `%XX` escape
(these five code points are 33-42, so `toString(16)` yields exactly two
digits and agrees with `pctHex`). -/
def replaceBangQuoteParenStar (s : String) : String :=
  ⟨s.data.flatMap (fun c => if isBangQuoteParenStar c then pctHex c.toNat else [c])⟩

/-- `encodeRFC3986` from the source (lines 79-82):
`encodeURIComponent(str).replace(/[!'()*]/g, ...)`. -/
def encodeRFC3986 (s : String) : String :=
  replaceBangQuoteParenStar (encodeURIComponentStr s)

/-! ## Spec-side encoder (§4.2 of the spec, for refinement comparison)

`isUnreservedByte` and `specEncodeByte` follow the spec's words: the RFC
3986 unreserved characters (letters, digits, `-`, `.`, `_`, `~`) pass
through; every other byte is escaped as `%XX` with uppercase hex digits
of its UTF-8 byte value. -/

/-- RFC 3986 unreserved bytes: `A-Z a-z 0-9 - . _ ~`. -/
def isUnreservedByte (n : Nat) : Prop :=
  (65 ≤ n ∧ n ≤ 90) ∨ (97 ≤ n ∧ n ≤ 122) ∨ (48 ≤ n ∧ n ≤ 57) ∨
  n = 45 ∨ n = 46 ∨ n = 95 ∨ n = 126

instance (n : Nat) : Decidable (isUnreservedByte n) := by
  unfold isUnreservedByte; infer_instance

/-- Spec-side encoding of one byte: unreserved bytes pass through, every
other byte becomes `%XX` with uppercase hex digits. -/
def specEncodeByte (b : Nat) : List Char :=
  if isUnreservedByte b then [Char.ofNat b] else pctHex b

/-- Spec-side percent-encoding of a string: encode each UTF-8 byte
independently. -/
def specEncodeString (s : String) : String :=
  ⟨(utf8Encode s).flatMap specEncodeByte⟩

/-! ### The encoders agree -/

theorem char_toNat_lt (c : Char) : c.toNat < 1114112 := by
  have h := c.valid
  rcases h with h | ⟨_, h2⟩
  · exact Nat.lt_trans h (by norm_num)
  · exact h2

theorem utf8Bytes_lt_256 (c : Char) : ∀ b ∈ utf8Bytes c, b < 256 := by
  have hval : c.toNat < 1114112 := char_toNat_lt c
  unfold utf8Bytes
  split
  · intro b hb; simp at hb; omega
  · split
    · intro b hb; simp at hb
      rcases hb with h | h <;> omega
    · split
      · intro b hb; simp at hb
        rcases hb with h | h | h <;> omega
      · intro b hb; simp at hb
        rcases hb with h | h | h | h <;> omega

theorem utf8Bytes_ge_128 (c : Char) (h : 128 ≤ c.toNat) :
    ∀ b ∈ utf8Bytes c, 128 ≤ b := by
  unfold utf8Bytes
  split
  · omega
  · split
    · intro b hb; simp at hb
      rcases hb with h' | h' <;> omega
    · split
      · intro b hb; simp at hb
        rcases hb with h' | h' | h' <;> omega
      · intro b hb; simp at hb
        rcases hb with h' | h' | h' | h' <;> omega

theorem utf8Bytes_ascii (c : Char) (h : c.toNat < 128) :
    utf8Bytes c = [c.toNat] := by
  unfold utf8Bytes
  simp [h]

theorem hexDigitUpper_not_special (d : Nat) (hd : d < 16) :
    ¬ isBangQuoteParenStar (hexDigitUpper d) := by
  interval_cases d <;> decide

theorem pctHex_fixed (b : Nat) (hb : b < 256) :
    (pctHex b).flatMap
      (fun c => if isBangQuoteParenStar c then pctHex c.toNat else [c]) = pctHex b := by
  have h1 : b / 16 < 16 := by omega
  have h2 : b % 16 < 16 := by omega
  simp only [pctHex, List.flatMap_cons, List.flatMap_nil, List.append_nil]
  rw [if_neg (by decide), if_neg (hexDigitUpper_not_special _ h1),
      if_neg (hexDigitUpper_not_special _ h2)]
  rfl

theorem encodeRFC3986_char (c : Char) :
    (encodeURIComponentChar c).flatMap
      (fun x => if isBangQuoteParenStar x then pctHex x.toNat else [x]) =
    (utf8Bytes c).flatMap specEncodeByte := by
  by_cases hu : isURIUnescaped c.toNat
  · -- `encodeURIComponent` passes the character through.
    have hlt : c.toNat < 128 := by
      rcases hu with h | h | h | h | h | h | h | h | h | h | h | h <;> omega
    rw [encodeURIComponentChar, if_pos hu, utf8Bytes_ascii c hlt]
    by_cases hs : isBangQuoteParenStar c
    · -- one of ! ' ( ) * : the `.replace` escapes it, and it is not unreserved
      have hn : ¬ isUnreservedByte c.toNat := by
        rcases hs with h | h | h | h | h <;> subst h <;> decide
      simp [hs, specEncodeByte, hn]
    · -- a genuinely unreserved character passes both steps
      have hcode : c.toNat ≠ 33 ∧ c.toNat ≠ 39 ∧ c.toNat ≠ 40 ∧ c.toNat ≠ 41 ∧ c.toNat ≠ 42 := by
        refine ⟨?_, ?_, ?_, ?_, ?_⟩ <;>
          (intro h; apply hs; unfold isBangQuoteParenStar;
           have : c = Char.ofNat c.toNat := (Char.ofNat_toNat c).symm)
        · exact Or.inl (by rw [this, h])
        · exact Or.inr (Or.inl (by rw [this, h]))
        · exact Or.inr (Or.inr (Or.inl (by rw [this, h])))
        · exact Or.inr (Or.inr (Or.inr (Or.inl (by rw [this, h]))))
        · exact Or.inr (Or.inr (Or.inr (Or.inr (by rw [this, h]))))
      have hunres : isUnreservedByte c.toNat := by
        unfold isUnreservedByte
        obtain ⟨h1, h2, h3, h4, h5⟩ := hcode
        rcases hu with h | h | h | h | h | h | h | h | h | h | h | h <;> omega
      simp [hs, specEncodeByte, hunres, Char.ofNat_toNat]
  · -- `encodeURIComponent` escapes the character byte-by-byte.
    rw [encodeURIComponentChar, if_neg hu]
    have hbytes : ∀ b ∈ utf8Bytes c, ¬ isUnreservedByte b := by
      intro b hb
      by_cases hlt : c.toNat < 128
      · rw [utf8Bytes_ascii c hlt] at hb
        simp at hb; subst hb
        intro hres
        apply hu
        unfold isUnreservedByte at hres
        unfold isURIUnescaped
        rcases hres with h | h | h | h | h | h | h <;> omega
      · have := utf8Bytes_ge_128 c (by omega) b hb
        intro hres
        unfold isUnreservedByte at hres
        omega
    rw [List.flatMap_assoc]
    apply List.flatMap_congr
    intro b hb
    rw [pctHex_fixed b (utf8Bytes_lt_256 c b hb)]
    rw [specEncodeByte, if_neg (hbytes b hb)]

/-- The source encoder and the spec-side encoder agree on every string. -/
theorem encodeRFC3986_eq_spec (s : String) :
    encodeRFC3986 s = specEncodeString s := by
  unfold encodeRFC3986 replaceBangQuoteParenStar encodeURIComponentStr
    specEncodeString utf8Encode
  congr 1
  rw [List.flatMap_assoc, List.flatMap_assoc]
  apply List.flatMap_congr
  intro c _
  exact encodeRFC3986_char c

/-! ## HMAC-SHA256 and base64

Modelled from the spec: the source calls the Node.js standard library
(`crypto.createHmac('sha256', key).update(msg).digest('base64')`), which
is not part of this repository.  The definitions below follow the
published algorithms: SHA-256 per FIPS 180-4, HMAC per RFC 2104, base64
per RFC 4648 (standard alphabet, `=` padding).  Words are `Nat`s reduced
modulo `2^32`; byte strings are `List Nat`. -/

/-- Truncate to a 32-bit word. -/
def w32 (n : Nat) : Nat := n % 4294967296

/-- Right rotation of a 32-bit word by `r` places. -/
def rotr32 (x r : Nat) : Nat := x / 2 ^ r + x % 2 ^ r * 2 ^ (32 - r)

/-- SHA-256 big sigma-0: `ROTR 2 ^ ROTR 13 ^ ROTR 22`. -/
def bSig0 (x : Nat) : Nat := rotr32 x 2 ^^^ rotr32 x 13 ^^^ rotr32 x 22

/-- SHA-256 big sigma-1: `ROTR 6 ^ ROTR 11 ^ ROTR 25`. -/
def bSig1 (x : Nat) : Nat := rotr32 x 6 ^^^ rotr32 x 11 ^^^ rotr32 x 25

/-- SHA-256 small sigma-0: `ROTR 7 ^ ROTR 18 ^ SHR 3`. -/
def sSig0 (x : Nat) : Nat := rotr32 x 7 ^^^ rotr32 x 18 ^^^ x / 8

/-- SHA-256 small sigma-1: `ROTR 17 ^ ROTR 19 ^ SHR 10`. -/
def sSig1 (x : Nat) : Nat := rotr32 x 17 ^^^ rotr32 x 19 ^^^ x / 1024

/-- SHA-256 choice function. -/
def shaCh (x y z : Nat) : Nat := (x &&& y) ^^^ ((4294967295 - x) &&& z)

/-- SHA-256 majority function. -/
def shaMaj (x y z : Nat) : Nat := (x &&& y) ^^^ (x &&& z) ^^^ (y &&& z)

/-- The 64 SHA-256 round constants (FIPS 180-4 §4.2.2, written in
decimal). -/
def shaK : List Nat :=
  [1116352408, 1899447441, 3049323471, 3921009573, 961987163, 1508970993,
   2453635748, 2870763221, 3624381080, 310598401, 607225278, 1426881987,
   1925078388, 2162078206, 2614888103, 3248222580, 3835390401, 4022224774,
   264347078, 604807628, 770255983, 1249150122, 1555081692, 1996064986,
   2554220882, 2821834349, 2952996808, 3210313671, 3336571891, 3584528711,
   113926993, 338241895, 666307205, 773529912, 1294757372, 1396182291,
   1695183700, 1986661051, 2177026350, 2456956037, 2730485921, 2820302411,
   3259730800, 3345764771, 3516065817, 3600352804, 4094571909, 275423344,
   430227734, 506948616, 659060556, 883997877, 958139571, 1322822218,
   1537002063, 1747873779, 1955562222, 2024104815, 2227730452, 2361852424,
   2428436474, 2756734187, 3204031479, 3329325298]

/-- The SHA-256 initial hash value (FIPS 180-4 §5.3.3, written in
decimal). -/
def shaH0 : List Nat :=
  [1779033703, 3144134277, 1013904242, 2773480762,
   1359893119, 2600822924, 528734635, 1541459225]

/-- `k` big-endian bytes of `n`. -/
def natToBytesBE : Nat → Nat → List Nat
  | 0, _ => []
  | k + 1, n => natToBytesBE k (n / 256) ++ [n % 256]

/-- Group bytes into big-endian 32-bit words (length a multiple of 4). -/
def bytesToWordsBE : List Nat → List Nat
  | b1 :: b2 :: b3 :: b4 :: rest =>
      (b1 * 16777216 + b2 * 65536 + b3 * 256 + b4) :: bytesToWordsBE rest
  | _ => []

/-- SHA-256 padding: append `0x80`, zeros to 56 mod 64, then the 64-bit
big-endian bit length. -/
def shaPad (m : List Nat) : List Nat :=
  m ++ 128 :: List.replicate ((119 - m.length % 64) % 64) 0 ++ natToBytesBE 8 (m.length * 8)

/-- Extend the 16 message-schedule words by `n` more words. -/
def shaExtend (w : List Nat) : Nat → List Nat
  | 0 => w
  | n + 1 =>
      let prev := shaExtend w n
      prev ++ [w32 (sSig1 (prev.getD (prev.length - 2) 0) + prev.getD (prev.length - 7) 0 +
                    sSig0 (prev.getD (prev.length - 15) 0) + prev.getD (prev.length - 16) 0)]

/-- The SHA-256 working state. -/
structure ShaState where
  a : Nat
  b : Nat
  c : Nat
  d : Nat
  e : Nat
  f : Nat
  g : Nat
  h : Nat

/-- One SHA-256 compression round. -/
def shaRound (s : ShaState) (kw : Nat × Nat) : ShaState :=
  let t1 := s.h + bSig1 s.e + shaCh s.e s.f s.g + kw.1 + kw.2
  let t2 := bSig0 s.a + shaMaj s.a s.b s.c
  ⟨w32 (t1 + t2), s.a, s.b, s.c, w32 (s.d + t1), s.e, s.f, s.g⟩

/-- Compress one 64-byte block into the running hash. -/
def shaBlock (h : List Nat) (block : List Nat) : List Nat :=
  let w := shaExtend (bytesToWordsBE block) 48
  let s0 : ShaState :=
    ⟨h.getD 0 0, h.getD 1 0, h.getD 2 0, h.getD 3 0, h.getD 4 0, h.getD 5 0, h.getD 6 0, h.getD 7 0⟩
  let s := (shaK.zip w).foldl shaRound s0
  [w32 (h.getD 0 0 + s.a), w32 (h.getD 1 0 + s.b), w32 (h.getD 2 0 + s.c), w32 (h.getD 3 0 + s.d),
   w32 (h.getD 4 0 + s.e), w32 (h.getD 5 0 + s.f), w32 (h.getD 6 0 + s.g), w32 (h.getD 7 0 + s.h)]

/-- Split a byte string into 64-byte blocks. -/
def chunk64 (l : List Nat) : List (List Nat) :=
  if h : l = [] then [] else
    have : l.length - 64 < l.length := by
      have : 0 < l.length := List.length_pos.mpr h
      omega
    l.take 64 :: chunk64 (l.drop 64)
termination_by l.length
decreasing_by simpa using this

/-- SHA-256 of a byte string, as 32 bytes. -/
def sha256 (msg : List Nat) : List Nat :=
  ((chunk64 (shaPad msg)).foldl shaBlock shaH0).flatMap (natToBytesBE 4)

/-- HMAC-SHA256 (RFC 2104): keys longer than the 64-byte block are first
hashed, the key is zero-padded to 64 bytes, and the digest is
`SHA256((K ^ opad) || SHA256((K ^ ipad) || msg))`. -/
def hmacSha256 (key msg : List Nat) : List Nat :=
  let k0 := if 64 < key.length then sha256 key else key
  let kp := k0 ++ List.replicate (64 - k0.length) 0
  sha256 ((kp.map (fun b => b ^^^ 92)) ++ sha256 ((kp.map (fun b => b ^^^ 54)) ++ msg))

/-- The RFC 4648 standard base64 alphabet. -/
def base64Alphabet : List Char :=
  "ABCDEFGHIJKLMNOPQRSTUVWXYZabcdefghijklmnopqrstuvwxyz0123456789+/".data

/-- Standard-alphabet base64 character for a 6-bit value. -/
def b64Char (n : Nat) : Char := base64Alphabet.getD n (Char.ofNat 65)

/-- Standard base64 encoding with `=` padding. -/
def base64Encode : List Nat → List Char
  | [] => []
  | [b1] => [b64Char (b1 / 4), b64Char (b1 % 4 * 16), Char.ofNat 61, Char.ofNat 61]
  | [b1, b2] =>
      [b64Char (b1 / 4), b64Char (b1 % 4 * 16 + b2 / 16), b64Char (b2 % 16 * 4), Char.ofNat 61]
  | b1 :: b2 :: b3 :: rest =>
      [b64Char (b1 / 4), b64Char (b1 % 4 * 16 + b2 / 16), b64Char (b2 % 16 * 4 + b3 / 64),
       b64Char (b3 % 64)] ++ base64Encode rest

/-! ## Configuration and validation (source lines 6-27)

JS string-typed config fields may be absent (`undefined`) or empty; both
are falsy, which is what `validateConfig`'s filter tests. -/

/-- The raw constructor argument: each required field may be absent. -/
structure RawConfig where
  accountId : Option String
  consumerKey : Option String
  consumerSecret : Option String
  tokenId : Option String
  tokenSecret : Option String
  restletUrl : Option String

/-- JS falsiness of a string-or-undefined value (`!this.config[key]`). -/
def jsFalsy : Option String → Bool
  | none => true
  | some s => s = ""

/-- The `required` list of `validateConfig` (source line 13). -/
def requiredKeys : List String :=
  ["accountId", "consumerKey", "consumerSecret", "tokenId", "tokenSecret", "restletUrl"]

/-- Dynamic field access `this.config[key]`. -/
def configField (c : RawConfig) (k : String) : Option String :=
  if k = "accountId" then c.accountId
  else if k = "consumerKey" then c.consumerKey
  else if k = "consumerSecret" then c.consumerSecret
  else if k = "tokenId" then c.tokenId
  else if k = "tokenSecret" then c.tokenSecret
  else if k = "restletUrl" then c.restletUrl
  else none

/-- `required.filter(key => !this.config[key])` (source line 14). -/
def missingFields (c : RawConfig) : List String :=
  requiredKeys.filter (fun k => jsFalsy (configField c k))

/-- `validateConfig` (source lines 12-18): throws when any required field
is missing or empty, naming the missing fields. -/
def validateConfig (c : RawConfig) : Except String Unit :=
  if 0 < (missingFields c).length then
    .error ("Missing required configuration: " ++ ", ".intercalate (missingFields c))
  else .ok ()

/-- A validated configuration, fields all present. -/
structure OAuthConfig where
  accountId : String
  consumerKey : String
  consumerSecret : String
  tokenId : String
  tokenSecret : String
  restletUrl : String

/-- The `NetSuiteDownloader` constructor (source lines 7-10): validation
runs before anything else; on failure no downloader is produced, so no
encoding or HMAC work can ever run for that configuration. -/
def mkNetSuiteDownloader (c : RawConfig) : Except String OAuthConfig :=
  match validateConfig c with
  | .error e => .error e
  | .ok _ =>
      .ok ⟨c.accountId.getD "", c.consumerKey.getD "", c.consumerSecret.getD "",
           c.tokenId.getD "", c.tokenSecret.getD "", c.restletUrl.getD ""⟩

/-! ## OAuth header generation (`generateOAuthHeader`, source lines 30-76)

The `new URL(url)` object is embedded as its relevant projections:
`protocol` (with the trailing colon, as in JS), `host`, `pathname`, and
the decoded `searchParams` pairs.  OAuth parameter values are JS values:
every value is a string except `oauth_timestamp`, which the source stores
as the number `Math.floor(Date.now() / 1000)`. -/

/-- A JS value appearing as an OAuth/query parameter value. -/
inductive JSVal where
  | str (s : String)
  | num (n : Nat)
deriving DecidableEq

/-- Is the value a JS string? -/
def JSVal.isStr : JSVal → Bool
  | .str _ => true
  | .num _ => false

/-- JS string coercion, as applied by `encodeURIComponent` to a number
(the decimal representation for the integers used here). -/
def jsToStr : JSVal → String
  | .str s => s
  | .num n => Nat.repr n

/-- `encodeRFC3986` applied to a JS value (coercing numbers to strings,
as `encodeURIComponent` does). -/
def encodeRFC3986Val (v : JSVal) : String := encodeRFC3986 (jsToStr v)

/-- The parsed URL: projections of the JS `URL` object used by the
source. -/
structure URLObj where
  protocol : String
  host : String
  pathname : String
  searchParams : List (String × String)

/-- Base URL (source line 36):
`urlObj.protocol + "//" + urlObj.host + urlObj.pathname` — the query
string and fragment are excluded. -/
def baseUrlOf (u : URLObj) : String := u.protocol ++ "//" ++ u.host ++ u.pathname

/-- JS object assignment `obj[k] = v` on an object represented as an
insertion-ordered association list: an existing key keeps its position
and gets the new value, a new key is appended. -/
def objInsert : List (String × JSVal) → String → JSVal → List (String × JSVal)
  | [], k, v => [(k, v)]
  | (k', v') :: rest, k, v =>
      if k' = k then (k', v) :: rest else (k', v') :: objInsert rest k v

/-- Value of a key in a JS object. -/
def objLookup : List (String × JSVal) → String → Option JSVal
  | [], _ => none
  | (k', v) :: rest, k => if k' = k then some v else objLookup rest k

/-- `queryParams` (source lines 39-42): each decoded `searchParams` pair
is assigned into a fresh object, so a repeated key keeps the last
value. -/
def queryParamsOf (u : URLObj) : List (String × JSVal) :=
  u.searchParams.foldl (fun m kv => objInsert m kv.1 (.str kv.2)) []

/-- `oauthParams` (source lines 44-51).  `oauth_timestamp` is the number
`timestamp`; every other value is a string. -/
def oauthParamsOf (consumerKey nonce tokenId : String) (timestamp : Nat) :
    List (String × JSVal) :=
  [("oauth_consumer_key", .str consumerKey),
   ("oauth_nonce", .str nonce),
   ("oauth_signature_method", .str "HMAC-SHA256"),
   ("oauth_timestamp", .num timestamp),
   ("oauth_token", .str tokenId),
   ("oauth_version", .str "1.0")]

/-- `allParams = { ...oauthParams, ...queryParams }` (source line 54):
start from the OAuth parameters and assign each query parameter, so a
query key that collides with an OAuth key replaces its value. -/
def allParamsOf (cfg : OAuthConfig) (u : URLObj) (nonce : String) (timestamp : Nat) :
    List (String × JSVal) :=
  (queryParamsOf u).foldl (fun m kv => objInsert m kv.1 kv.2)
    (oauthParamsOf cfg.consumerKey nonce cfg.tokenId timestamp)

/-- Lexicographic comparison of character lists by code point (the order
JS string comparison induces; identical to UTF-16 code-unit order on the
basic-plane keys that occur here). -/
def charListLe : List Char → List Char → Bool
  | [], _ => true
  | _ :: _, [] => false
  | a :: as, b :: bs =>
      if a.toNat < b.toNat then true
      else if b.toNat < a.toNat then false
      else charListLe as bs

/-- The string order used by JS default `Array.prototype.sort()`. -/
def jsLe (a b : String) : Prop := charListLe a.data b.data = true

instance : DecidableRel jsLe := fun a b => by unfold jsLe; infer_instance

/-- JS `Array.prototype.sort()` on strings sorts ascending
lexicographically.  Modelled as a sorted permutation. -/
def jsSortStrings (l : List String) : List String :=
  List.insertionSort jsLe l

/-- The canonical parameter string (source lines 56-59):
`Object.keys(allParams).sort().map(key => enc(key) + "=" + enc(allParams[key])).join("&")`. -/
def paramStringOf (params : List (String × JSVal)) : String :=
  "&".intercalate ((jsSortStrings (params.map Prod.fst)).map
    (fun k => encodeRFC3986 k ++ "=" ++ encodeRFC3986Val ((objLookup params k).getD (.str ""))))

/-- The signature base string (source line 61):
`method + "&" + enc(baseUrl) + "&" + enc(paramString)` — the method is
used exactly as supplied. -/
def baseStringOf (method : String) (u : URLObj) (paramStr : String) : String :=
  method ++ "&" ++ encodeRFC3986 (baseUrlOf u) ++ "&" ++ encodeRFC3986 paramStr

/-- The signing key (source line 62):
`enc(consumerSecret) + "&" + enc(tokenSecret)`. -/
def signingKeyOf (cfg : OAuthConfig) : String :=
  encodeRFC3986 cfg.consumerSecret ++ "&" ++ encodeRFC3986 cfg.tokenSecret

/-- The signature (source line 63): base64 of the HMAC-SHA256 of the base
string under the signing key (strings enter the HMAC as UTF-8 bytes). -/
def signatureOf (cfg : OAuthConfig) (u : URLObj) (method nonce : String) (timestamp : Nat) :
    String :=
  ⟨base64Encode (hmacSha256 (utf8Encode (signingKeyOf cfg))
    (utf8Encode (baseStringOf method u (paramStringOf (allParamsOf cfg u nonce timestamp)))))⟩

/-- The header entry array (source lines 66-75), in source order:
`realm` first, then the seven `oauth_*` parameters. -/
def headerEntriesOf (cfg : OAuthConfig) (u : URLObj) (method nonce : String)
    (timestamp : Nat) : List String :=
  ["realm=\"" ++ encodeRFC3986 cfg.accountId ++ "\"",
   "oauth_consumer_key=\"" ++ encodeRFC3986 cfg.consumerKey ++ "\"",
   "oauth_nonce=\"" ++ encodeRFC3986 nonce ++ "\"",
   "oauth_signature=\"" ++ encodeRFC3986 (signatureOf cfg u method nonce timestamp) ++ "\"",
   "oauth_signature_method=\"HMAC-SHA256\"",
   "oauth_timestamp=\"" ++ encodeRFC3986 (Nat.repr timestamp) ++ "\"",
   "oauth_token=\"" ++ encodeRFC3986 cfg.tokenId ++ "\"",
   "oauth_version=\"1.0\""]

/-- `generateOAuthHeader` (source lines 30-76), with the nonce and
timestamp passed in where the source reads `crypto.randomBytes` and
`Date.now()`: `'OAuth ' + entries.join(', ')`. -/
def generateOAuthHeader (cfg : OAuthConfig) (u : URLObj) (method nonce : String)
    (timestamp : Nat) : String :=
  "OAuth " ++ ", ".intercalate (headerEntriesOf cfg u method nonce timestamp)

/-- The nonce as the source derives it from 16 random bytes:
`crypto.randomBytes(16).toString('hex')` (lowercase hex). -/
def hexDigitLower (d : Nat) : Char :=
  if d < 10 then Char.ofNat (48 + d) else Char.ofNat (87 + d)

/-- Lowercase-hex rendering of the nonce bytes. -/
def nonceOf (bytes : List Nat) : String :=
  ⟨bytes.flatMap (fun b => [hexDigitLower (b / 16), hexDigitLower (b % 16)])⟩

/-! ## Order theory for the JS string sort -/

theorem charListLe_total : ∀ as bs, charListLe as bs = true ∨ charListLe bs as = true
  | [], _ => Or.inl rfl
  | _ :: _, [] => Or.inr rfl
  | a :: as, b :: bs => by
      by_cases h1 : a.toNat < b.toNat
      · exact Or.inl (by simp [charListLe, h1])
      · by_cases h2 : b.toNat < a.toNat
        · exact Or.inr (by simp [charListLe, h2])
        · rcases charListLe_total as bs with h | h
          · exact Or.inl (by simp [charListLe, h1, h2, h])
          · exact Or.inr (by simp [charListLe, h2, h1, h])

theorem charListLe_trans :
    ∀ as bs cs, charListLe as bs = true → charListLe bs cs = true → charListLe as cs = true
  | [], _, _, _, _ => rfl
  | _ :: _, [], _, h, _ => by simp [charListLe] at h
  | _ :: _, _ :: _, [], _, h => by simp [charListLe] at h
  | a :: as, b :: bs, c :: cs, h1, h2 => by
      simp only [charListLe] at h1 h2 ⊢
      split_ifs at h1 h2 ⊢ <;>
        first
          | rfl
          | omega
          | exact charListLe_trans as bs cs h1 h2

theorem charListLe_antisymm :
    ∀ as bs, charListLe as bs = true → charListLe bs as = true → as = bs
  | [], [], _, _ => rfl
  | [], _ :: _, _, h => by simp [charListLe] at h
  | _ :: _, [], h, _ => by simp [charListLe] at h
  | a :: as, b :: bs, h1, h2 => by
      by_cases hab : a.toNat < b.toNat
      · simp [charListLe, Nat.lt_asymm hab, hab] at h2
      · by_cases hba : b.toNat < a.toNat
        · simp [charListLe, hab, hba] at h1
        · have h3 : charListLe as bs = true := by simpa [charListLe, hab, hba] using h1
          have h4 : charListLe bs as = true := by simpa [charListLe, hba, hab] using h2
          have heq : a = b := by
            have hn : a.toNat = b.toNat := by omega
            calc a = Char.ofNat a.toNat := (Char.ofNat_toNat a).symm
            _ = Char.ofNat b.toNat := by rw [hn]
            _ = b := Char.ofNat_toNat b
          rw [heq, charListLe_antisymm as bs h3 h4]

instance : IsTotal String jsLe := ⟨fun a b => charListLe_total a.data b.data⟩

instance : IsTrans String jsLe := ⟨fun a b c => charListLe_trans a.data b.data c.data⟩

instance : IsAntisymm String jsLe :=
  ⟨fun a b h1 h2 => by
    have h := charListLe_antisymm a.data b.data h1 h2
    cases a; cases b
    exact congrArg String.mk h⟩

/-- Order on parameter pairs by raw key, for the amended canonical-order
statement. -/
def keyLe (p q : String × JSVal) : Prop := jsLe p.1 q.1

instance : DecidableRel keyLe := fun p q => by unfold keyLe; infer_instance

instance : IsTotal (String × JSVal) keyLe := ⟨fun p q => charListLe_total p.1.data q.1.data⟩

instance : IsTrans (String × JSVal) keyLe :=
  ⟨fun p q r => charListLe_trans p.1.data q.1.data r.1.data⟩

/-! ## Object lookup lemmas -/

theorem objLookup_eq_of_mem :
    ∀ (l : List (String × JSVal)) (k : String) (v : JSVal),
      (l.map Prod.fst).Nodup → (k, v) ∈ l → objLookup l k = some v
  | [], _, _, _, h => by simp at h
  | (k2, v2) :: rest, k, v, hnd, hmem => by
      simp only [List.map_cons, List.nodup_cons] at hnd
      obtain ⟨hk, hrest⟩ := hnd
      rcases List.mem_cons.mp hmem with heq | hmem2
      · injection heq with hk2 hv2
        subst hk2; subst hv2
        simp [objLookup]
      · have hne : k2 ≠ k := by
          intro h
          subst h
          exact hk (List.mem_map.mpr ⟨(k2, v), hmem2, rfl⟩)
        simp only [objLookup, if_neg hne]
        exact objLookup_eq_of_mem rest k v hrest hmem2

theorem objLookup_mem_of_eq :
    ∀ (l : List (String × JSVal)) (k : String) (v : JSVal),
      objLookup l k = some v → (k, v) ∈ l
  | [], _, _, h => by simp [objLookup] at h
  | (k2, v2) :: rest, k, v, h => by
      by_cases hk : k2 = k
      · subst hk
        simp only [objLookup, if_pos rfl] at h
        exact List.mem_cons.mpr (Or.inl (by rw [Option.some.inj h]))
      · simp only [objLookup, if_neg hk] at h
        exact List.mem_cons.mpr (Or.inr (objLookup_mem_of_eq rest k v h))

theorem objLookup_eq_none :
    ∀ (l : List (String × JSVal)) (k : String),
      k ∉ l.map Prod.fst → objLookup l k = none
  | [], _, _ => rfl
  | (k2, v2) :: rest, k, h => by
      simp only [List.map_cons, List.mem_cons] at h
      push_neg at h
      simp only [objLookup]
      rw [if_neg (fun hh => h.1 hh.symm)]
      exact objLookup_eq_none rest k h.2

theorem objLookup_objInsert_self :
    ∀ (m : List (String × JSVal)) (k : String) (v : JSVal),
      objLookup (objInsert m k v) k = some v
  | [], k, v => by simp [objInsert, objLookup]
  | (k2, v2) :: rest, k, v => by
      by_cases h : k2 = k
      · subst h
        simp [objInsert, objLookup]
      · simp only [objInsert, if_neg h, objLookup]
        exact objLookup_objInsert_self rest k v

theorem objLookup_objInsert_ne :
    ∀ (m : List (String × JSVal)) (k : String) (v : JSVal) (k2 : String), k2 ≠ k →
      objLookup (objInsert m k v) k2 = objLookup m k2
  | [], k, v, k2, h => by
      simp only [objInsert, objLookup]
      rw [if_neg (fun hh => h hh.symm)]
  | (k3, v3) :: rest, k, v, k2, h => by
      by_cases h3 : k3 = k
      · subst h3
        simp only [objInsert, if_pos rfl, objLookup]
        rw [if_neg (fun hh => h hh.symm), if_neg (fun hh => h hh.symm)]
      · simp only [objInsert, if_neg h3, objLookup]
        by_cases h32 : k3 = k2
        · rw [if_pos h32, if_pos h32]
        · rw [if_neg h32, if_neg h32]
          exact objLookup_objInsert_ne rest k v k2 h

theorem mem_keys_objInsert :
    ∀ (m : List (String × JSVal)) (k : String) (v : JSVal) (k2 : String),
      k2 ∈ (objInsert m k v).map Prod.fst ↔ k2 ∈ m.map Prod.fst ∨ k2 = k
  | [], k, v, k2 => by simp [objInsert]
  | (k3, v3) :: rest, k, v, k2 => by
      by_cases h3 : k3 = k
      · subst h3
        simp [objInsert]
        tauto
      · simp only [objInsert, if_neg h3, List.map_cons, List.mem_cons,
          mem_keys_objInsert rest k v k2]
        tauto

theorem nodupKeys_objInsert :
    ∀ (m : List (String × JSVal)) (k : String) (v : JSVal),
      (m.map Prod.fst).Nodup → ((objInsert m k v).map Prod.fst).Nodup
  | [], k, v, _ => by simp [objInsert]
  | (k3, v3) :: rest, k, v, hnd => by
      simp only [List.map_cons, List.nodup_cons] at hnd
      by_cases h3 : k3 = k
      · subst h3
        simpa [objInsert] using hnd
      · simp only [objInsert, if_neg h3, List.map_cons, List.nodup_cons]
        refine ⟨?_, nodupKeys_objInsert rest k v hnd.2⟩
        intro hmem
        rcases (mem_keys_objInsert rest k v k3).mp hmem with h | h
        · exact hnd.1 h
        · exact h3 h

theorem nodupKeys_foldl_query :
    ∀ (l : List (String × String)) (base : List (String × JSVal)),
      (base.map Prod.fst).Nodup →
      ((l.foldl (fun m kv => objInsert m kv.1 (.str kv.2)) base).map Prod.fst).Nodup
  | [], _, h => h
  | kv :: rest, base, h =>
      nodupKeys_foldl_query rest (objInsert base kv.1 (.str kv.2))
        (nodupKeys_objInsert base kv.1 (.str kv.2) h)

/-- The decoded query mapping is a JS object, so its keys are distinct. -/
theorem nodupKeys_queryParams (u : URLObj) : ((queryParamsOf u).map Prod.fst).Nodup :=
  nodupKeys_foldl_query u.searchParams [] (by simp)

theorem objLookup_foldl_insert_not_mem :
    ∀ (l : List (String × JSVal)) (base : List (String × JSVal)) (k : String),
      (∀ kv ∈ l, kv.1 ≠ k) →
      objLookup (l.foldl (fun m kv => objInsert m kv.1 kv.2) base) k = objLookup base k
  | [], _, _, _ => rfl
  | kv2 :: rest, base, k, h => by
      rw [List.foldl_cons,
          objLookup_foldl_insert_not_mem rest _ k
            (fun kv hkv => h kv (List.mem_cons_of_mem kv2 hkv)),
          objLookup_objInsert_ne base kv2.1 kv2.2 k
            (fun hh => h kv2 (List.mem_cons_self kv2 rest) hh.symm)]

theorem objLookup_foldl_insert_of_mem :
    ∀ (l : List (String × JSVal)) (base : List (String × JSVal)) (k : String) (v : JSVal),
      (l.map Prod.fst).Nodup → (k, v) ∈ l →
      objLookup (l.foldl (fun m kv => objInsert m kv.1 kv.2) base) k = some v
  | [], _, _, _, _, hmem => by simp at hmem
  | (k2, v2) :: rest, base, k, v, hnd, hmem => by
      simp only [List.map_cons, List.nodup_cons] at hnd
      rw [List.foldl_cons]
      rcases List.mem_cons.mp hmem with heq | hmem2
      · injection heq with hk hv
        subst hk; subst hv
        have hrest : ∀ kv ∈ rest, kv.1 ≠ k := by
          intro kv hkv hcontra
          exact hnd.1 (List.mem_map.mpr ⟨kv, hkv, hcontra⟩)
        rw [objLookup_foldl_insert_not_mem rest _ k hrest, objLookup_objInsert_self]
      · exact objLookup_foldl_insert_of_mem rest (objInsert base k2 v2) k v hnd.2 hmem2

/-! ## Nonce hex-encoding lemmas -/

theorem nonceOf_length : ∀ bytes : List Nat, (nonceOf bytes).length = 2 * bytes.length
  | [] => rfl
  | b :: t => by
      have ih := nonceOf_length t
      unfold nonceOf at ih ⊢
      simp only [List.flatMap_cons, String.length] at ih ⊢
      simp only [List.length_append, List.length_cons, List.length_nil]
      omega

theorem hexDigitLower_bounds (d : Nat) (hd : d < 16) :
    33 ≤ (hexDigitLower d).toNat ∧ (hexDigitLower d).toNat ≤ 126 := by
  interval_cases d <;> decide

theorem hexDigitLower_inj (d1 d2 : Nat) (h1 : d1 < 16) (h2 : d2 < 16)
    (h : hexDigitLower d1 = hexDigitLower d2) : d1 = d2 := by
  have hfin : ∀ a b : Fin 16, hexDigitLower a.val = hexDigitLower b.val → a = b := by decide
  have := hfin ⟨d1, h1⟩ ⟨d2, h2⟩ h
  exact congrArg Fin.val this

theorem nonceHex_inj :
    ∀ l1 l2 : List Nat, (∀ b ∈ l1, b < 256) → (∀ b ∈ l2, b < 256) →
      nonceOf l1 = nonceOf l2 → l1 = l2
  | [], [], _, _, _ => rfl
  | [], b :: t, _, _, h => by
      have hdata := congrArg String.data h
      unfold nonceOf at hdata
      simp [List.flatMap_cons] at hdata
  | b :: t, [], _, _, h => by
      have hdata := congrArg String.data h
      unfold nonceOf at hdata
      simp [List.flatMap_cons] at hdata
  | a :: t1, b :: t2, hb1, hb2, h => by
      have hdata := congrArg String.data h
      unfold nonceOf at hdata
      simp only [List.flatMap_cons, List.cons_append, List.nil_append,
        List.cons.injEq] at hdata
      obtain ⟨hh1, hh2, hrest⟩ := hdata
      have ha : a < 256 := hb1 a (List.mem_cons_self a t1)
      have hbb : b < 256 := hb2 b (List.mem_cons_self b t2)
      have e1 : a / 16 = b / 16 :=
        hexDigitLower_inj _ _ (by omega) (by omega) hh1
      have e2 : a % 16 = b % 16 :=
        hexDigitLower_inj _ _ (by omega) (by omega) hh2
      have hab : a = b := by omega
      have htail : t1 = t2 :=
        nonceHex_inj t1 t2 (fun x hx => hb1 x (List.mem_cons_of_mem a hx))
          (fun x hx => hb2 x (List.mem_cons_of_mem b hx))
          (congrArg String.mk hrest)
      rw [hab, htail]

/-! ## Sample inputs used by concrete counterexamples and witnesses -/

/-- A fixed valid configuration (the spec §8 concrete vector). -/
def sampleConfig : OAuthConfig :=
  ⟨"ACCT1", "CK", "CS", "TK", "TS", "https://example.com/app.nl"⟩

/-- A fixed parsed target URL without query parameters. -/
def sampleUrl : URLObj := ⟨"https:", "example.com", "/app.nl", []⟩

/-! ## C1 -/

/-- C1: `encodeRFC3986` leaves exactly the RFC 3986 unreserved characters
(letters, digits, `-`, `.`, `_`, `~`) unescaped and escapes every other
byte of the UTF-8 encoding of the input as `%XX` with uppercase hex
digits, for every input string; in particular `!`, the apostrophe, `(`,
`)`, `*`, space, `&`, `=`, `/`, `:`, `?` are escaped and the unreserved
characters are left alone. -/
theorem c1_encoder_escapes_exactly_nonunreserved :
    (∀ s : String, encodeRFC3986 s = ⟨(utf8Encode s).flatMap specEncodeByte⟩) ∧
    encodeRFC3986 "!'()* &=/:?" = "%21%27%28%29%2A%20%26%3D%2F%3A%3F" ∧
    encodeRFC3986 "AZaz09-._~" = "AZaz09-._~" :=
  ⟨encodeRFC3986_eq_spec, by decide, by decide⟩

/-! ## C3 -/

/-- Modelled from the spec (§4.3 step (a)): upper-case the method token.
The source never calls `toUpperCase`; this definition exists only to
state the claim. -/
def specToUpper (s : String) : String :=
  ⟨s.data.map (fun c =>
    if 97 ≤ c.toNat ∧ c.toNat ≤ 122 then Char.ofNat (c.toNat - 32) else c)⟩

/-- The signature base string as claim C3 words it: upper-cased method,
`&`, percent-encoded base URL (scheme + `://` + host + path, query and
fragment excluded), `&`, percent-encoded parameter string, using the
§4.2 encoding rules. -/
def specBaseString (method : String) (u : URLObj) (paramStr : String) : String :=
  specToUpper method ++ "&" ++
    specEncodeString (u.protocol ++ "//" ++ u.host ++ u.pathname) ++ "&" ++
    specEncodeString paramStr

/-- C3 counterexample: for the method token `"get"` the source's base
string starts with `get&`, not `GET&`, so the claim's upper-casing clause
fails. -/
theorem c3_counterexample_lowercase_method :
    baseStringOf "get" sampleUrl "a=1" ≠ specBaseString "get" sampleUrl "a=1" := by
  decide

/-- C3 amended: the base string uses the method token exactly as supplied
(no upper-casing); whenever the supplied method is already fully
upper-case — as at both call sites, which pass `"POST"` and `"GET"` — it
coincides with the claimed `METHOD & enc(baseURL) & enc(params)` form. -/
theorem c3_base_string_for_uppercase_method :
    ∀ (method : String) (u : URLObj) (paramStr : String),
      specToUpper method = method →
      baseStringOf method u paramStr = specBaseString method u paramStr := by
  intro m u p h
  unfold baseStringOf specBaseString baseUrlOf
  rw [h, encodeRFC3986_eq_spec, encodeRFC3986_eq_spec]

/-- C3 witness: the amended statement at the method `"POST"`. -/
theorem c3_base_string_witness :
    specToUpper "POST" = "POST" ∧
    baseStringOf "POST" sampleUrl "a=1" = specBaseString "POST" sampleUrl "a=1" :=
  ⟨by decide, c3_base_string_for_uppercase_method "POST" sampleUrl "a=1" (by decide)⟩

/-! ## C4 -/

/-- C4: the signature is the standard-alphabet, padded base64 encoding of
the HMAC-SHA256 digest of the base string keyed with
`enc(consumerSecret) + "&" + enc(tokenSecret)` (encoding per the §4.2
rules, stated through the spec-side encoder); when the token secret is
the empty string, the part after the `&` is empty but the `&` remains. -/
theorem c4_signature_hmac_base64 :
    (∀ (cfg : OAuthConfig) (u : URLObj) (method nonce : String) (ts : Nat),
      signatureOf cfg u method nonce ts =
        ⟨base64Encode (hmacSha256
          (utf8Encode (specEncodeString cfg.consumerSecret ++ "&" ++
            specEncodeString cfg.tokenSecret))
          (utf8Encode (baseStringOf method u
            (paramStringOf (allParamsOf cfg u nonce ts)))))⟩) ∧
    (∀ cfg : OAuthConfig, cfg.tokenSecret = "" →
      signingKeyOf cfg = specEncodeString cfg.consumerSecret ++ "&") := by
  constructor
  · intro cfg u method nonce ts
    unfold signatureOf signingKeyOf
    rw [encodeRFC3986_eq_spec, encodeRFC3986_eq_spec]
  · intro cfg h
    unfold signingKeyOf
    rw [h, encodeRFC3986_eq_spec, encodeRFC3986_eq_spec,
        show specEncodeString "" = "" from rfl, String.append_empty]

/-- C4 witness: the empty-token-secret clause at a concrete
configuration. -/
theorem c4_signature_witness :
    signingKeyOf ⟨"ACCT1", "CK", "CS", "TK", "", "u"⟩ = specEncodeString "CS" ++ "&" :=
  c4_signature_hmac_base64.2 ⟨"ACCT1", "CK", "CS", "TK", "", "u"⟩ rfl

/-! ## C5 -/

/-- C5: the produced Authorization header is exactly the literal prefix
`OAuth ` followed by the pairs realm, oauth_consumer_key, oauth_nonce,
oauth_signature, oauth_signature_method (value `HMAC-SHA256`),
oauth_timestamp, oauth_token, oauth_version (value `1.0`), in that
order, each rendered as `name="value"` with the value percent-encoded
per the §4.2 rules (stated through the spec-side encoder), separated by
comma-and-space. -/
theorem c5_header_exact_format :
    ∀ (cfg : OAuthConfig) (u : URLObj) (method nonce : String) (ts : Nat),
      generateOAuthHeader cfg u method nonce ts =
        "OAuth " ++ ", ".intercalate
          ([("realm", cfg.accountId),
            ("oauth_consumer_key", cfg.consumerKey),
            ("oauth_nonce", nonce),
            ("oauth_signature", signatureOf cfg u method nonce ts),
            ("oauth_signature_method", "HMAC-SHA256"),
            ("oauth_timestamp", Nat.repr ts),
            ("oauth_token", cfg.tokenId),
            ("oauth_version", "1.0")].map
            (fun p => p.1 ++ "=\"" ++ specEncodeString p.2 ++ "\"")) := by
  intro cfg u method nonce ts
  unfold generateOAuthHeader headerEntriesOf
  simp only [List.map_cons, List.map_nil, ← encodeRFC3986_eq_spec]
  rfl

/-! ## C7 -/

/-- The parameter name of a rendered header entry: the characters before
the equals sign. -/
def entryName (e : String) : String := ⟨e.data.takeWhile (fun c => c ≠ Char.ofNat 61)⟩

/-- The parameter names of the rendered header, in rendered order. -/
def headerNamesOf (cfg : OAuthConfig) (u : URLObj) (method nonce : String)
    (ts : Nat) : List String :=
  (headerEntriesOf cfg u method nonce ts).map entryName

/-- C7 counterexample: the rendered parameter order is `realm` first and
then the seven `oauth_*` names, which is not sorted alphabetically
(`realm` sorts after every `oauth_*` name). -/
theorem c7_counterexample_realm_rendered_first :
    headerNamesOf sampleConfig sampleUrl "POST" "n" 1700000000 =
      ["realm", "oauth_consumer_key", "oauth_nonce", "oauth_signature",
       "oauth_signature_method", "oauth_timestamp", "oauth_token", "oauth_version"] ∧
    ¬ List.Sorted jsLe (headerNamesOf sampleConfig sampleUrl "POST" "n" 1700000000) :=
  ⟨by decide, by decide⟩

/-- C7 amended: on every signing call the header renders `realm` first
and then the seven `oauth_*` parameters in alphabetical order, so the
full name sequence is not alphabetically sorted (the `realm` pair comes
before, not after, the `oauth_*` pairs), while its tail is. -/
theorem c7_header_order_realm_then_sorted :
    ∀ (cfg : OAuthConfig) (u : URLObj) (method nonce : String) (ts : Nat),
      headerNamesOf cfg u method nonce ts =
        ["realm", "oauth_consumer_key", "oauth_nonce", "oauth_signature",
         "oauth_signature_method", "oauth_timestamp", "oauth_token", "oauth_version"] ∧
      List.Sorted jsLe (headerNamesOf cfg u method nonce ts).tail := by
  intro cfg u method nonce ts
  refine ⟨rfl, ?_⟩
  rw [show headerNamesOf cfg u method nonce ts =
        ["realm", "oauth_consumer_key", "oauth_nonce", "oauth_signature",
         "oauth_signature_method", "oauth_timestamp", "oauth_token", "oauth_version"] from rfl]
  decide

/-! ## C2 -/

/-- The pair order claim C2 asserts: lexicographically by encoded key,
ties broken by encoded value. -/
def encPairLe (p q : String × String) : Prop :=
  if p.1 = q.1 then jsLe p.2 q.2 else jsLe p.1 q.1

instance : DecidableRel encPairLe := fun p q => by unfold encPairLe; infer_instance

/-- The canonical parameter string as claim C2 words it: percent-encode
each pair, sort by encoded key (ties by encoded value), join with `&`. -/
def specParamStringEncSorted (params : List (String × JSVal)) : String :=
  "&".intercalate
    ((List.insertionSort encPairLe
        (params.map (fun p => (encodeRFC3986 p.1, encodeRFC3986Val p.2)))).map
      (fun q => q.1 ++ "=" ++ q.2))

/-- A target URL whose query keys `-` and `/` order differently raw and
encoded: raw `"-" < "/"`, but encoded `"%2F" < "-"`. -/
def dashSlashUrl : URLObj := ⟨"https:", "example.com", "/app.nl", [("-", "1"), ("/", "2")]⟩

/-- C2 counterexample: for the parameter set of `dashSlashUrl` the
source's canonical string (sorted by raw key: `-=1&%2F=2&...`) differs
from the claimed encoded-key-sorted string (`%2F=2&-=1&...`). -/
theorem c2_counterexample_encoded_key_sort :
    paramStringOf (allParamsOf sampleConfig dashSlashUrl "n" 5) ≠
      specParamStringEncSorted (allParamsOf sampleConfig dashSlashUrl "n" 5) := by
  decide

/-- The canonical parameter string of the amended claim: the pairs
themselves sorted lexicographically by raw key, then rendered as
percent-encoded `key=value` and joined with `&`. -/
def specParamStringRawSorted (params : List (String × JSVal)) : String :=
  "&".intercalate ((List.insertionSort keyLe params).map
    (fun p => encodeRFC3986 p.1 ++ "=" ++ encodeRFC3986Val p.2))

/-- C2 amended: the canonical parameter string is the list of
percent-encoded `key=value` pairs sorted lexicographically by the raw
(decoded) key — not the encoded key — joined with `&`; keys of the
parameter mapping are distinct, so no tie-break is ever needed. -/
theorem c2_canonical_sorted_by_raw_key :
    ∀ params : List (String × JSVal), (params.map Prod.fst).Nodup →
      paramStringOf params = specParamStringRawSorted params := by
  intro params hnd
  unfold paramStringOf specParamStringRawSorted
  have hperm : ((List.insertionSort keyLe params).map Prod.fst).Perm (params.map Prod.fst) :=
    (List.perm_insertionSort keyLe params).map Prod.fst
  have hsorted : List.Sorted jsLe ((List.insertionSort keyLe params).map Prod.fst) :=
    List.Pairwise.map Prod.fst (fun a b h => h) (List.sorted_insertionSort keyLe params)
  have hkeys : jsSortStrings (params.map Prod.fst) =
      (List.insertionSort keyLe params).map Prod.fst :=
    List.eq_of_perm_of_sorted
      ((List.perm_insertionSort jsLe (params.map Prod.fst)).trans hperm.symm)
      (List.sorted_insertionSort jsLe (params.map Prod.fst)) hsorted
  rw [jsSortStrings] at hkeys
  rw [jsSortStrings, hkeys, List.map_map]
  apply congrArg
  apply List.map_congr_left
  intro p hp
  have hpmem : p ∈ params := (List.perm_insertionSort keyLe params).mem_iff.mp hp
  have hl : objLookup params p.1 = some p.2 :=
    objLookup_eq_of_mem params p.1 p.2 hnd hpmem
  simp [Function.comp, hl]

/-- C2 witness: the amended statement at a concrete two-key parameter
set. -/
theorem c2_canonical_witness :
    ([(("b" : String), JSVal.str "2"), ("a", JSVal.str "1")].map Prod.fst).Nodup ∧
    paramStringOf [("b", JSVal.str "2"), ("a", JSVal.str "1")] =
      specParamStringRawSorted [("b", JSVal.str "2"), ("a", JSVal.str "1")] :=
  ⟨by decide, c2_canonical_sorted_by_raw_key _ (by decide)⟩

/-! ## C8 -/

/-- C8: canonicalization is invariant under re-ordering of the input
mapping — permuted parameter lists with the same distinct-keyed pairs
produce the byte-identical canonical parameter string. -/
theorem c8_canonicalization_perm_invariant :
    ∀ p1 p2 : List (String × JSVal), p1.Perm p2 → (p1.map Prod.fst).Nodup →
      paramStringOf p1 = paramStringOf p2 := by
  intro p1 p2 hperm hnd
  have hnd2 : (p2.map Prod.fst).Nodup := (hperm.map Prod.fst).nodup_iff.mp hnd
  unfold paramStringOf
  have hkeys : jsSortStrings (p1.map Prod.fst) = jsSortStrings (p2.map Prod.fst) :=
    List.eq_of_perm_of_sorted
      ((List.perm_insertionSort jsLe (p1.map Prod.fst)).trans
        ((hperm.map Prod.fst).trans (List.perm_insertionSort jsLe (p2.map Prod.fst)).symm))
      (List.sorted_insertionSort jsLe (p1.map Prod.fst))
      (List.sorted_insertionSort jsLe (p2.map Prod.fst))
  rw [hkeys]
  apply congrArg
  apply List.map_congr_left
  intro k _
  have hlk : objLookup p1 k = objLookup p2 k := by
    cases h : objLookup p1 k with
    | some v =>
        exact (objLookup_eq_of_mem p2 k v hnd2
          (hperm.mem_iff.mp (objLookup_mem_of_eq p1 k v h))).symm
    | none =>
        have hnk : k ∉ p1.map Prod.fst := by
          intro hmem
          obtain ⟨q, hmem2, hk2⟩ := List.mem_map.mp hmem
          obtain ⟨k2, v⟩ := q
          cases hk2
          rw [objLookup_eq_of_mem p1 k2 v hnd hmem2] at h
          exact Option.noConfusion h
        exact (objLookup_eq_none p2 k
          (fun hmem => hnk ((hperm.map Prod.fst).mem_iff.mpr hmem))).symm
  rw [hlk]

/-- C8 witness: two permuted presentations of the same two-pair mapping
canonicalize identically. -/
theorem c8_perm_witness :
    ([(("b" : String), JSVal.str "2"), ("a", JSVal.str "1")]).Perm
        [("a", JSVal.str "1"), ("b", JSVal.str "2")] ∧
    paramStringOf [("b", JSVal.str "2"), ("a", JSVal.str "1")] =
      paramStringOf [("a", JSVal.str "1"), ("b", JSVal.str "2")] :=
  ⟨by decide, c8_canonicalization_perm_invariant _ _ (by decide) (by decide)⟩

/-! ## C6 -/

/-- C6: constructing the downloader with any required credential field
(`accountId`, `consumerKey`, `consumerSecret`, `tokenId`, `tokenSecret`,
`restletUrl`) empty or missing fails with the configuration error naming
exactly the missing fields; the failure happens in the constructor, so
no percent-encoding or HMAC work is reachable for such a configuration
(in particular an empty `tokenSecret` fails this way, as the witness
instantiates). -/
theorem c6_constructor_rejects_missing_fields :
    ∀ c : RawConfig,
      (jsFalsy c.accountId ∨ jsFalsy c.consumerKey ∨ jsFalsy c.consumerSecret ∨
       jsFalsy c.tokenId ∨ jsFalsy c.tokenSecret ∨ jsFalsy c.restletUrl) →
      mkNetSuiteDownloader c =
        .error ("Missing required configuration: " ++ ", ".intercalate (missingFields c)) ∧
      missingFields c ≠ [] := by
  intro c h
  have hmem : ∃ k, k ∈ missingFields c := by
    rcases h with h | h | h | h | h | h
    · exact ⟨"accountId", List.mem_filter.mpr ⟨by decide, h⟩⟩
    · exact ⟨"consumerKey", List.mem_filter.mpr ⟨by decide, h⟩⟩
    · exact ⟨"consumerSecret", List.mem_filter.mpr ⟨by decide, h⟩⟩
    · exact ⟨"tokenId", List.mem_filter.mpr ⟨by decide, h⟩⟩
    · exact ⟨"tokenSecret", List.mem_filter.mpr ⟨by decide, h⟩⟩
    · exact ⟨"restletUrl", List.mem_filter.mpr ⟨by decide, h⟩⟩
  obtain ⟨k, hk⟩ := hmem
  have hne : missingFields c ≠ [] := List.ne_nil_of_mem hk
  have hlen : 0 < (missingFields c).length := List.length_pos.mpr hne
  refine ⟨?_, hne⟩
  unfold mkNetSuiteDownloader validateConfig
  rw [if_pos hlen]

/-- C6 witness: a configuration whose only falsy field is the empty
`tokenSecret` is rejected with the error naming `tokenSecret`. -/
theorem c6_constructor_witness :
    mkNetSuiteDownloader
        ⟨some "ACCT1", some "CK", some "CS", some "TK", some "", some "u"⟩ =
      .error "Missing required configuration: tokenSecret" :=
  ((c6_constructor_rejects_missing_fields
      ⟨some "ACCT1", some "CK", some "CS", some "TK", some "", some "u"⟩
      (Or.inr (Or.inr (Or.inr (Or.inr (Or.inl (by decide))))))).1).trans
    (congrArg Except.error (by decide))

/-! ## C9 -/

/-- C9 counterexample: the value stored under `oauth_timestamp` in the
OAuth parameter set is the JS number `timestamp`, not a string. -/
theorem c9_counterexample_timestamp_is_number :
    objLookup (oauthParamsOf "CK" "n0nce" "TK" 1700000000) "oauth_timestamp" =
      some (JSVal.num 1700000000) ∧
    JSVal.isStr (JSVal.num 1700000000) = false :=
  ⟨rfl, rfl⟩

/-- C9 amended: the nonce is the lowercase-hex rendering of the 16
random bytes — a 32-character printable string that is injective in the
bytes, so all 128 bits of randomness are preserved; the timestamp is
placed into the OAuth parameter set as the number of epoch seconds (not
a string) and is coerced to its decimal-string form only when
percent-encoded. -/
theorem c9_nonce_hex_and_timestamp_number :
    ∀ bytes : List Nat, bytes.length = 16 → (∀ b ∈ bytes, b < 256) →
      (nonceOf bytes).length = 32 ∧
      (∀ c ∈ (nonceOf bytes).data, 33 ≤ c.toNat ∧ c.toNat ≤ 126) ∧
      (∀ bytes2 : List Nat, (∀ b ∈ bytes2, b < 256) →
        nonceOf bytes = nonceOf bytes2 → bytes = bytes2) ∧
      (∀ (ck nonce tk : String) (ts : Nat),
        objLookup (oauthParamsOf ck nonce tk ts) "oauth_timestamp" = some (JSVal.num ts) ∧
        jsToStr (JSVal.num ts) = Nat.repr ts) := by
  intro bytes hlen hbound
  refine ⟨?_, ?_, ?_, ?_⟩
  · rw [show (nonceOf bytes).length = 2 * bytes.length from nonceOf_length bytes, hlen]
  · intro c hc
    unfold nonceOf at hc
    simp only [List.mem_flatMap] at hc
    obtain ⟨b, hb, hcb⟩ := hc
    have h16a : b / 16 < 16 := by have := hbound b hb; omega
    have h16b : b % 16 < 16 := by omega
    simp only [List.mem_cons, List.not_mem_nil, or_false] at hcb
    rcases hcb with h | h <;> subst h
    · exact hexDigitLower_bounds (b / 16) h16a
    · exact hexDigitLower_bounds (b % 16) h16b
  · intro bytes2 hbound2 heq
    exact nonceHex_inj bytes bytes2 hbound hbound2 heq
  · intro ck nonce tk ts
    exact ⟨rfl, rfl⟩

/-- C9 witness: the amended statement at sixteen zero bytes. -/
theorem c9_nonce_witness :
    (List.replicate 16 0).length = 16 ∧
    (nonceOf (List.replicate 16 0)).length = 32 :=
  ⟨by decide,
   (c9_nonce_hex_and_timestamp_number (List.replicate 16 0) (by decide) (by decide)).1⟩

/-! ## C10 -/

/-- The header pair the source renders for an OAuth protocol parameter
name: the name and the percent-encoding of its credential/provider
derived value (the value `oauthParams` binds it to, never the query
value). -/
def renderedProtocolEntry (cfg : OAuthConfig) (nonce : String) (ts : Nat) (k : String) :
    String :=
  k ++ "=\"" ++
    encodeRFC3986 (jsToStr
      ((objLookup (oauthParamsOf cfg.consumerKey nonce cfg.tokenId ts) k).getD (.str ""))) ++
    "\""

/-- C10: on every signing call whose decoded query mapping binds a key
equal to any OAuth protocol parameter name, the query value replaces the
protocol value in the signed parameter set, while the rendered header
still contains the pair with the credential/provider-derived value — so
the signed and rendered parameter sets differ for that key whenever the
two values differ. -/
theorem c10_query_overrides_signed_not_rendered :
    ∀ (cfg : OAuthConfig) (u : URLObj) (method nonce : String) (ts : Nat)
      (k : String) (qv : JSVal),
      k ∈ (oauthParamsOf cfg.consumerKey nonce cfg.tokenId ts).map Prod.fst →
      objLookup (queryParamsOf u) k = some qv →
      objLookup (allParamsOf cfg u nonce ts) k = some qv ∧
      renderedProtocolEntry cfg nonce ts k ∈ headerEntriesOf cfg u method nonce ts ∧
      (∀ pv : JSVal,
        objLookup (oauthParamsOf cfg.consumerKey nonce cfg.tokenId ts) k = some pv →
        qv ≠ pv → objLookup (allParamsOf cfg u nonce ts) k ≠ some pv) := by
  intro cfg u method nonce ts k qv hk hq
  have hsigned : objLookup (allParamsOf cfg u nonce ts) k = some qv := by
    unfold allParamsOf
    exact objLookup_foldl_insert_of_mem (queryParamsOf u) _ k qv
      (nodupKeys_queryParams u) (objLookup_mem_of_eq (queryParamsOf u) k qv hq)
  refine ⟨hsigned, ?_, ?_⟩
  · have hk6 : k = "oauth_consumer_key" ∨ k = "oauth_nonce" ∨
        k = "oauth_signature_method" ∨ k = "oauth_timestamp" ∨
        k = "oauth_token" ∨ k = "oauth_version" := by
      simpa [oauthParamsOf] using hk
    rcases hk6 with h | h | h | h | h | h <;> subst h
    · exact List.mem_cons.mpr (Or.inr (List.mem_cons.mpr (Or.inl rfl)))
    · exact List.mem_cons.mpr (Or.inr (List.mem_cons.mpr (Or.inr
        (List.mem_cons.mpr (Or.inl rfl)))))
    · exact List.mem_cons.mpr (Or.inr (List.mem_cons.mpr (Or.inr
        (List.mem_cons.mpr (Or.inr (List.mem_cons.mpr (Or.inr
          (List.mem_cons.mpr (Or.inl rfl)))))))))
    · exact List.mem_cons.mpr (Or.inr (List.mem_cons.mpr (Or.inr
        (List.mem_cons.mpr (Or.inr (List.mem_cons.mpr (Or.inr
          (List.mem_cons.mpr (Or.inr (List.mem_cons.mpr (Or.inl rfl)))))))))))
    · exact List.mem_cons.mpr (Or.inr (List.mem_cons.mpr (Or.inr
        (List.mem_cons.mpr (Or.inr (List.mem_cons.mpr (Or.inr
          (List.mem_cons.mpr (Or.inr (List.mem_cons.mpr (Or.inr
            (List.mem_cons.mpr (Or.inl rfl)))))))))))))
    · exact List.mem_cons.mpr (Or.inr (List.mem_cons.mpr (Or.inr
        (List.mem_cons.mpr (Or.inr (List.mem_cons.mpr (Or.inr
          (List.mem_cons.mpr (Or.inr (List.mem_cons.mpr (Or.inr
            (List.mem_cons.mpr (Or.inr (List.mem_cons.mpr (Or.inl rfl)))))))))))))))
  · intro pv hpv hne hcontra
    rw [hsigned] at hcontra
    exact hne (Option.some.inj hcontra)

/-- C10 witness: a query string with surrounding `script`/`deploy` pairs
and an `oauth_token` key bound to `QT`: the signed set takes `QT`, the
header still renders the credential token id `TK`, and the two differ. -/
theorem c10_override_witness :
    objLookup
        (queryParamsOf ⟨"https:", "h", "/p",
          [("script", "1"), ("oauth_token", "QT"), ("deploy", "2")]⟩) "oauth_token" =
      some (JSVal.str "QT") ∧
    objLookup
        (allParamsOf sampleConfig ⟨"https:", "h", "/p",
          [("script", "1"), ("oauth_token", "QT"), ("deploy", "2")]⟩ "n" 5) "oauth_token" =
      some (JSVal.str "QT") ∧
    renderedProtocolEntry sampleConfig "n" 5 "oauth_token" ∈
      headerEntriesOf sampleConfig ⟨"https:", "h", "/p",
        [("script", "1"), ("oauth_token", "QT"), ("deploy", "2")]⟩ "POST" "n" 5 ∧
    objLookup
        (allParamsOf sampleConfig ⟨"https:", "h", "/p",
          [("script", "1"), ("oauth_token", "QT"), ("deploy", "2")]⟩ "n" 5) "oauth_token" ≠
      some (JSVal.str sampleConfig.tokenId) :=
  have h := c10_query_overrides_signed_not_rendered sampleConfig
    ⟨"https:", "h", "/p", [("script", "1"), ("oauth_token", "QT"), ("deploy", "2")]⟩
    "POST" "n" 5 "oauth_token" (JSVal.str "QT") (by decide) (by decide)
  ⟨by decide, h.1, h.2.1, h.2.2 (JSVal.str sampleConfig.tokenId) rfl (by decide)⟩

end NetSuite
